import Mathlib

/-!
Verification of the metric aggregation and reconciliation pipeline of a
SaaS analytics dashboard (billing ledger builder, analytics series fetcher,
series merger, time-bucket aggregator, rate calculator).

Modelling conventions, chosen once for the whole development:

* Calendar dates (ISO strings of the form YYYY-MM-DD in the source) are
  modelled as integer day numbers (days since the Unix epoch).  Comparison
  of ISO date strings by localeCompare coincides with integer comparison
  of day numbers, and adding one calendar day is adding 1.
* JavaScript number amounts are modelled as rationals; integer counts as
  integers.  Monetary division by 100 is exact rational division.
* The paginated billing provider is modelled as a function from page
  numbers to responses.  The while-loops of the source are modelled with
  an explicit fuel parameter; a result of none means the fuel ran out,
  which is how a non-terminating loop manifests in the embedding.
* JavaScript truthiness is modelled explicitly where the source relies on
  it (missing api key, meta.page.lastPage, invoice order_id).
-/

namespace SaaSMetrics

/-! ## Data model of the billing provider records (lemonsqueezy source file) -/

/-- One billing-provider order record, keeping the attributes the source
reads: attributes.status, attributes.created_at (as a day number) and
attributes.total (integer minor currency units). -/
structure Order where
  status : String
  createdAt : Int
  total : Int
deriving DecidableEq, Repr

/-- One subscription-invoice record with the attributes the source reads.
The order_id attribute may be absent (none); the source tests it with
JavaScript truthiness. -/
structure Invoice where
  status : String
  billingReason : String
  orderId : Option Int
  createdAt : Int
  total : Int
deriving DecidableEq, Repr

/-- One customer record: its id and the attributes.mrr field, which may be
absent (the source reads it as c.attributes.mrr || 0). -/
structure Customer where
  id : Int
  mrr : Option Int
deriving DecidableEq, Repr

/-- One subscription record: the source only reads attributes.customer_id. -/
structure Subscription where
  customerId : Int
deriving DecidableEq, Repr

/-- The LemonSqueezyMetrics interface: one record per calendar day. -/
structure LemonSqueezyMetrics where
  date : Int
  mrr : ℚ
  revenue : ℚ
  renewalRevenue : ℚ
  churnRate : ℚ
  activeCustomers : Int
  purchases : Int
deriving DecidableEq, Repr

/-! ## Day ranges

The source seeds the daily ledger with a loop
  while (currentDate <= endDate) add key; currentDate += 1 day
starting at startDate.  With dates as day numbers this is the inclusive
integer range below (empty when startDate > endDate). -/

/-- Inclusive list of day numbers startDate, startDate+1, ..., endDate. -/
def dayRange (startDate endDate : Int) : List Int :=
  if startDate ≤ endDate then
    (List.range ((endDate - startDate).toNat + 1)).map (fun (i : Nat) => startDate + (i : Int))
  else []

/-! ## Paginated fetching

Each page request of the billing provider yields either an error object
(the source throws), a missing data object (the source breaks out of the
loop), or a page of records together with the reported meta.page.lastPage
(absent meta is folded into none). -/

/-- Response of the billing provider to one page request. -/
inductive FetchResp (α : Type) where
  | err (msg : String)
  | nodata
  | page (data : List α) (lastPage : Option Nat)

/-- Records carried by a response; err and nodata carry none. -/
def respData {α : Type} : FetchResp α → List α
  | .err _ => []
  | .nodata => []
  | .page d _ => d

/-- JavaScript truthiness of meta?.page.lastPage: undefined and 0 are
falsy.  The source guards the lastPage backstop with this truthiness. -/
def lastPageTruthy : Option Nat → Bool
  | none => false
  | some n => n != 0

/-- Pagination loop of fetchAllOrders.  Collects the orders whose
created_at lies in [startDate, endDate]; stops when the last record of a
page is older than startDate, or when the reported last page is reached
(only if lastPage is truthy); otherwise advances to the next page.  The
allInPageTooOld flag of the source is computed but never read, so it is
omitted.  The fuel argument bounds the number of iterations the embedding
can take; none means the loop was still running when the fuel ran out. -/
def fetchAllOrders (resp : Nat → FetchResp Order) (startDate endDate : Int) :
    Nat → Nat → List Order → Option (Except String (List Order))
  | 0, _, _ => none
  | fuel + 1, page, acc =>
    match resp page with
    | .err m => some (.error m)
    | .nodata => some (.ok acc)
    | .page orders lastPage =>
      let acc2 := acc ++ orders.filter
        (fun o => decide (startDate ≤ o.createdAt) && decide (o.createdAt ≤ endDate))
      let lastTooOld : Bool :=
        match orders.getLast? with
        | some lastItem => decide (lastItem.createdAt < startDate)
        | none => false
      if lastTooOld then some (.ok acc2)
      else if lastPageTruthy lastPage && decide (lastPage.getD 0 ≤ page) then some (.ok acc2)
      else fetchAllOrders resp startDate endDate fuel (page + 1) acc2

/-- Pagination loop of fetchAllInvoices, structurally identical to the
orders loop (collect records created inside [startDate, endDate], stop on
an old last record or at the truthy last page). -/
def fetchAllInvoices (resp : Nat → FetchResp Invoice) (startDate endDate : Int) :
    Nat → Nat → List Invoice → Option (Except String (List Invoice))
  | 0, _, _ => none
  | fuel + 1, page, acc =>
    match resp page with
    | .err m => some (.error m)
    | .nodata => some (.ok acc)
    | .page invoices lastPage =>
      let acc2 := acc ++ invoices.filter
        (fun inv => decide (startDate ≤ inv.createdAt) && decide (inv.createdAt ≤ endDate))
      let lastTooOld : Bool :=
        match invoices.getLast? with
        | some lastItem => decide (lastItem.createdAt < startDate)
        | none => false
      if lastTooOld then some (.ok acc2)
      else if lastPageTruthy lastPage && decide (lastPage.getD 0 ≤ page) then some (.ok acc2)
      else fetchAllInvoices resp startDate endDate fuel (page + 1) acc2

/-- Pagination loop of fetchAllCustomers: pushes every record of every
page and stops only through the truthy-lastPage backstop (no date
short-circuit; the source wants the full account snapshot). -/
def fetchAllCustomers (resp : Nat → FetchResp Customer) :
    Nat → Nat → List Customer → Option (Except String (List Customer))
  | 0, _, _ => none
  | fuel + 1, page, acc =>
    match resp page with
    | .err m => some (.error m)
    | .nodata => some (.ok acc)
    | .page customers lastPage =>
      let acc2 := acc ++ customers
      if lastPageTruthy lastPage && decide (lastPage.getD 0 ≤ page) then some (.ok acc2)
      else fetchAllCustomers resp fuel (page + 1) acc2

/-- Pagination loop of fetchActiveSubs (status filter active), same
structure as the customers loop. -/
def fetchActiveSubs (resp : Nat → FetchResp Subscription) :
    Nat → Nat → List Subscription → Option (Except String (List Subscription))
  | 0, _, _ => none
  | fuel + 1, page, acc =>
    match resp page with
    | .err m => some (.error m)
    | .nodata => some (.ok acc)
    | .page subs lastPage =>
      let acc2 := acc ++ subs
      if lastPageTruthy lastPage && decide (lastPage.getD 0 ≤ page) then some (.ok acc2)
      else fetchActiveSubs resp fuel (page + 1) acc2

/-! ## Reconciliation into the daily ledger -/

/-- Accumulator held per day key in the dailyData record of the source. -/
structure DayAcc where
  revenue : ℚ
  renewalRevenue : ℚ
  purchases : Int
deriving DecidableEq, Repr

/-- Initial dailyData map: one zero entry per day of the range, inserted
in ascending day order. -/
def seedDaily (startDate endDate : Int) : List (Int × DayAcc) :=
  (dayRange startDate endDate).map (fun d => (d, ⟨0, 0, 0⟩))

/-- Processing of one order: only status paid contributes; the entry of
its creation day (if the key exists in the map) gains total/100 revenue
and one purchase. -/
def processOrder (m : List (Int × DayAcc)) (o : Order) : List (Int × DayAcc) :=
  if o.status != "paid" then m
  else m.map (fun p =>
    if p.1 == o.createdAt then
      (p.1, { p.2 with
        revenue := p.2.revenue + (o.total : ℚ) / 100,
        purchases := p.2.purchases + 1 })
    else p)

/-- An invoice is initial when its billing_reason is initial or it carries
a truthy order_id (the double-counting check of the source). -/
def isInitial (inv : Invoice) : Bool :=
  inv.billingReason == "initial" ||
    (match inv.orderId with
     | none => false
     | some v => v != 0)

/-- Processing of one invoice: only paid, non-initial invoices contribute;
the entry of the creation day (if present) gains total/100 on both revenue
and renewalRevenue. -/
def processInvoice (m : List (Int × DayAcc)) (inv : Invoice) : List (Int × DayAcc) :=
  if inv.status != "paid" then m
  else if isInitial inv then m
  else m.map (fun p =>
    if p.1 == inv.createdAt then
      (p.1, { p.2 with
        revenue := p.2.revenue + (inv.total : ℚ) / 100,
        renewalRevenue := p.2.renewalRevenue + (inv.total : ℚ) / 100 })
    else p)

/-- The dailyData map after all orders and then all invoices have been
processed. -/
def buildDaily (orders : List Order) (invoices : List Invoice)
    (startDate endDate : Int) : List (Int × DayAcc) :=
  invoices.foldl processInvoice (orders.foldl processOrder (seedDaily startDate endDate))

/-- Snapshot MRR: sum of mrr/100 over the customers whose id appears among
the active subscriptions' customer ids. -/
def currentMRR (customers : List Customer) (activeSubs : List Subscription) : ℚ :=
  let activeCustomerIds := activeSubs.map (fun s => s.customerId)
  customers.foldl
    (fun acc c => if c.id ∈ activeCustomerIds then acc + ((c.mrr.getD 0 : Int) : ℚ) / 100 else acc)
    0

/-- Final mapping of one dailyData entry to a LemonSqueezyMetrics record:
snapshot mrr and active-subscription count on every day, zero churn. -/
def toMetrics (mrr : ℚ) (activeCustomers : Int) (p : Int × DayAcc) : LemonSqueezyMetrics :=
  { date := p.1
    mrr := mrr
    revenue := p.2.revenue
    renewalRevenue := p.2.renewalRevenue
    churnRate := 0
    activeCustomers := activeCustomers
    purchases := p.2.purchases }

/-- The series constructed from the four collected record lists: map the
dailyData entries and sort ascending by date (localeCompare on ISO date
strings is integer comparison of day numbers; insertion sort stands in for
Array.prototype.sort, which agrees with it extensionally). -/
def buildSeries (orders : List Order) (invoices : List Invoice)
    (customers : List Customer) (activeSubs : List Subscription)
    (startDate endDate : Int) : List LemonSqueezyMetrics :=
  List.insertionSort (fun a b => a.date ≤ b.date)
    ((buildDaily orders invoices startDate endDate).map
      (toMetrics (currentMRR customers activeSubs) activeSubs.length))

/-- Environment of the four paginated sub-fetches of the billing provider. -/
structure LSEnv where
  orders : Nat → FetchResp Order
  invoices : Nat → FetchResp Invoice
  customers : Nat → FetchResp Customer
  subs : Nat → FetchResp Subscription

/-- Body of the try block of fetchLemonSqueezyData: the four paginated
fetches in sequence, then the series construction.  An error of any fetch
aborts the whole computation (the source throws).  The fuel bounds every
pagination loop. -/
def fetchLemonSqueezyDataE (env : LSEnv) (startDate endDate : Int) (fuel : Nat) :
    Option (Except String (List LemonSqueezyMetrics)) :=
  match fetchAllOrders env.orders startDate endDate fuel 1 [] with
  | none => none
  | some (.error m) => some (.error m)
  | some (.ok orders) =>
    match fetchAllInvoices env.invoices startDate endDate fuel 1 [] with
    | none => none
    | some (.error m) => some (.error m)
    | some (.ok invoices) =>
      match fetchAllCustomers env.customers fuel 1 [] with
      | none => none
      | some (.error m) => some (.error m)
      | some (.ok customers) =>
        match fetchActiveSubs env.subs fuel 1 [] with
        | none => none
        | some (.error m) => some (.error m)
        | some (.ok activeSubs) =>
          some (.ok (buildSeries orders invoices customers activeSubs startDate endDate))

/-- JavaScript truthiness of the api key string: undefined and the empty
string are falsy. -/
def apiKeyTruthy : Option String → Bool
  | none => false
  | some s => s != ""

/-- The billing ledger builder fetchLemonSqueezyData.  A falsy api key
short-circuits to the empty series before any fetch; the catch block turns
any thrown fetch error into the empty series.  Only fuel exhaustion of a
pagination loop (none) escapes, faithfully representing a loop that never
terminates. -/
def fetchLemonSqueezyData (apiKey : Option String) (env : LSEnv)
    (startDate endDate : Int) (fuel : Nat) : Option (List LemonSqueezyMetrics) :=
  if ¬ apiKeyTruthy apiKey then some []
  else
    match fetchLemonSqueezyDataE env startDate endDate fuel with
    | none => none
    | some (.ok series) => some series
    | some (.error _) => some []

/-! ## Analytics series (posthog source file) -/

/-- The PostHogMetrics interface: per-day funnel counts and the per-domain
referrer breakdown (a JavaScript object, modelled as an association list). -/
structure PostHogMetrics where
  date : Int
  visitors : Int
  pricingViews : Int
  checkouts : Int
  purchases : Int
  referringDomains : List (String × Int)
deriving DecidableEq, Repr

/-- Fixed domain list of the mock generator. -/
def mockDomains : List String :=
  ["google.com", "twitter.com", "linkedin.com", "direct", "facebook.com"]

/-- The referring-domain loop of the mock generator: for each domain draw
count = floor(random * remaining/2), record it and subtract it from the
remaining visitors.  Returns the entries in insertion order together with
the final remainder.  The draws come from the stream rand starting at
index k. -/
def buildMockDomains (rand : Nat → ℚ) (k : Nat) :
    List String → Int → List (String × Int) × Int
  | [], remaining => ([], remaining)
  | domain :: rest, remaining =>
    let count : Int := ⌊rand k * ((remaining : ℚ) / 2)⌋
    let next := buildMockDomains rand (k + 1) rest (remaining - count)
    ((domain, count) :: next.1, next.2)

/-- One synthetic day of generateMockPostHogData.  Math.random() is
modelled by the stream rand of rationals in [0,1); day number i of the
range consumes the six draws 6*i .. 6*i+5 (one for visitors, five for the
domain split).  The double multiplications by 0.3, 0.1, 0.5 and the
halving are modelled as exact rational arithmetic: over the reachable
count range (0..1000) the IEEE double results floor to the same integers. -/
def mockDay (rand : Nat → ℚ) (i : Nat) (day : Int) : PostHogMetrics :=
  let visitors : Int := 500 + ⌊rand (6 * i) * 500⌋
  let pricingViews : Int := ⌊(visitors : ℚ) * (0.3 : ℚ)⌋
  let checkouts : Int := ⌊(pricingViews : ℚ) * (0.1 : ℚ)⌋
  let purchases : Int := ⌊(checkouts : ℚ) * (0.5 : ℚ)⌋
  let split := buildMockDomains rand (6 * i + 1) mockDomains visitors
  { date := day
    visitors := visitors
    pricingViews := pricingViews
    checkouts := checkouts
    purchases := purchases
    referringDomains :=
      split.1 ++ (if 0 < split.2 then [("other", split.2)] else []) }

/-- The mock analytics series: one synthetic record per calendar day of
the range (same while-loop over days as the ledger seeding). -/
def generateMockPostHogData (rand : Nat → ℚ) (startDate endDate : Int) :
    List PostHogMetrics :=
  (dayRange startDate endDate).enum.map (fun p => mockDay rand p.1 p.2)

/-! ## Series merger (actions source file) -/

/-- The DashboardData interface of the merged record. -/
structure DashboardData where
  date : Int
  visitors : Int
  pricingViews : Int
  checkouts : Int
  referringDomains : List (String × Int)
  mrr : ℚ
  revenue : ℚ
  renewalRevenue : ℚ
  churnRate : ℚ
  activeCustomers : Int
  purchases : Int
deriving DecidableEq, Repr

/-- Zero-valued analytics record substituted when the analytics series has
no entry with the billing record's date. -/
def defaultPostHog (date : Int) : PostHogMetrics :=
  { date := date
    visitors := 0
    pricingViews := 0
    checkouts := 0
    purchases := 0
    referringDomains := [] }

/-- Merge of one billing-ledger record with the analytics series, the body
of the map in getDashboardData.  The spread order of the source is
{...lemonItem, ...postHogItem, purchases: lemonItem.purchases}: analytics
fields overwrite the shared date and purchases keys, then purchases is
forcibly re-overwritten with the billing value.  The fields below spell
out this precedence. -/
def mergeOne (postHogData : List PostHogMetrics) (lemonItem : LemonSqueezyMetrics) :
    DashboardData :=
  let postHogItem :=
    (postHogData.find? (fun p => p.date == lemonItem.date)).getD
      (defaultPostHog lemonItem.date)
  { date := postHogItem.date
    visitors := postHogItem.visitors
    pricingViews := postHogItem.pricingViews
    checkouts := postHogItem.checkouts
    referringDomains := postHogItem.referringDomains
    mrr := lemonItem.mrr
    revenue := lemonItem.revenue
    renewalRevenue := lemonItem.renewalRevenue
    churnRate := lemonItem.churnRate
    activeCustomers := lemonItem.activeCustomers
    purchases := lemonItem.purchases }

/-- Merge step of getDashboardData: the billing ledger drives the output,
each of its records merged with the matching analytics record. -/
def mergeDashboardData (lemonData : List LemonSqueezyMetrics)
    (postHogData : List PostHogMetrics) : List DashboardData :=
  lemonData.map (mergeOne postHogData)

/-! ## Time-bucket aggregator (dashboard-client source file)

The granularity values come from the granularity select of the UI. -/

/-- Granularity of the aggregation. -/
inductive Granularity where
  | day
  | week
  | month
deriving DecidableEq, Repr

/-- Day of week of a day number, 0 = Sunday, as JavaScript Date.getDay
returns it (day 0, 1970-01-01, was a Thursday, hence the offset 4). -/
def getDay (d : Int) : Int := (d + 4) % 7

/-- Monday on or before the given day: the source computes
date.getDate() - day + (day == 0 ? -6 : 1) and feeds it to setDate, which
in day numbers is the expression below. -/
def weekStart (d : Int) : Int :=
  d - getDay d + (if getDay d == 0 then -6 else 1)

/-- Civil calendar date (year, month, day-of-month) of a day number,
proleptic Gregorian, the standard floor-division days-to-civil algorithm.
It stands in for the getFullYear/getMonth/getDate reads of the source. -/
def civilFromDays (d : Int) : Int × Int × Int :=
  let z := d + 719468
  let era := z / 146097
  let doe := z - era * 146097
  let yoe := (doe - doe / 1460 + doe / 36524 - doe / 146096) / 365
  let y := yoe + era * 400
  let doy := doe - (365 * yoe + yoe / 4 - yoe / 100)
  let mp := (5 * doy + 2) / 153
  let dom := doy - (153 * mp + 2) / 5 + 1
  let m := mp + (if mp < 10 then 3 else -9)
  (y + (if m ≤ 2 then 1 else 0), m, dom)

/-- First day of the month of the given day number, standing in for the
year-month-01 bucket key string of the source. -/
def monthStart (d : Int) : Int := d - (civilFromDays d).2.2 + 1

/-- Bucket key of a record date (the day case never reaches the key
computation: aggregation returns the input unchanged). -/
def bucketKey (g : Granularity) (d : Int) : Int :=
  match g with
  | .day => d
  | .week => weekStart d
  | .month => monthStart d

/-- Merge of the incoming record's referringDomains object into the
current bucket's: per-domain sum, creating absent keys (the
(… || 0) + count update of the source). -/
def mergeDomains (cur inc : List (String × Int)) : List (String × Int) :=
  inc.foldl
    (fun acc p =>
      if acc.any (fun q => q.1 == p.1) then
        acc.map (fun q => if q.1 == p.1 then (q.1, q.2 + p.2) else q)
      else acc ++ [p])
    cur

/-- Accumulation of one record into the current bucket: sum the flow
fields, overwrite the point-in-time fields mrr, activeCustomers and
churnRate with the incoming values, merge the domain maps. -/
def addInto (cb item : DashboardData) : DashboardData :=
  { cb with
    visitors := cb.visitors + item.visitors
    pricingViews := cb.pricingViews + item.pricingViews
    checkouts := cb.checkouts + item.checkouts
    purchases := cb.purchases + item.purchases
    revenue := cb.revenue + item.revenue
    renewalRevenue := cb.renewalRevenue + item.renewalRevenue
    mrr := item.mrr
    activeCustomers := item.activeCustomers
    churnRate := item.churnRate
    referringDomains := mergeDomains cb.referringDomains item.referringDomains }

/-- Seeding of a new bucket from a record: a copy of the record carrying
the bucket key as its date (the spread with date: bucketKey and the
deep-copied domain map of the source). -/
def startBucket (item : DashboardData) (key : Int) : DashboardData :=
  { item with date := key }

/-- Loop body of the aggregation: while the incoming record maps to the
current bucket's key it is accumulated; otherwise the current bucket is
flushed to the output and the record seeds a new one.  The final bucket is
flushed after the loop. -/
def aggLoop (g : Granularity) : List DashboardData → DashboardData → List DashboardData
  | [], cb => [cb]
  | item :: rest, cb =>
    if cb.date == bucketKey g item.date then aggLoop g rest (addInto cb item)
    else cb :: aggLoop g rest (startBucket item (bucketKey g item.date))

/-- The aggregatedData memo of the dashboard client: granularity day is
the identity; otherwise the records are folded into week or month buckets
in input order. -/
def aggregatedData (g : Granularity) (data : List DashboardData) : List DashboardData :=
  match g with
  | .day => data
  | _ =>
    match data with
    | [] => []
    | first :: rest => aggLoop g rest (startBucket first (bucketKey g first.date))

/-! ## Rate calculator (overview-chart source file)

The custom rate reads record fields by a user-supplied name string, so an
operand of calculateRate is a JavaScript value: a number, undefined (the
field name does not exist on the record), a non-numeric truthy value (the
date string or the referringDomains object), or NaN. -/

/-- JavaScript value flowing into calculateRate. -/
inductive JsVal where
  | undefined
  | nan
  | str
  | num (q : ℚ)
deriving DecidableEq, Repr

/-- JavaScript truthiness: undefined, NaN and 0 are falsy; the record's
date strings and domain objects (str) are truthy. -/
def JsVal.truthy : JsVal → Bool
  | .undefined => false
  | .nan => false
  | .str => true
  | .num q => q != 0

/-- JavaScript division as it can occur inside calculateRate: number by
nonzero number is rational division; any non-number operand yields NaN
(undefined and non-numeric strings coerce to NaN).  Division by zero
(Infinity/NaN in JavaScript) is unreachable there because the zero
denominator is caught by the truthiness guard first. -/
def jsDiv : JsVal → JsVal → JsVal
  | .num a, .num b => if b == 0 then .nan else .num (a / b)
  | _, _ => .nan

/-- Multiplication of the ratio by 100; NaN propagates. -/
def jsMul100 : JsVal → JsVal
  | .num a => .num (a * 100)
  | _ => .nan

/-- Helper to calculate rate safely: a falsy or zero denominator yields
exactly 0, otherwise (numerator/denominator)*100. -/
def calculateRate (numerator denominator : JsVal) : JsVal :=
  if !denominator.truthy || denominator == .num 0 then .num 0
  else jsMul100 (jsDiv numerator denominator)

/-- Duck-typed field read (item as any)[name] of the custom-rate
configuration: the nine numeric fields yield their number, date and
referringDomains are non-numeric truthy values, any other name is absent. -/
def lookupField (item : DashboardData) : String → JsVal
  | "visitors" => .num item.visitors
  | "pricingViews" => .num item.pricingViews
  | "checkouts" => .num item.checkouts
  | "purchases" => .num item.purchases
  | "mrr" => .num item.mrr
  | "revenue" => .num item.revenue
  | "renewalRevenue" => .num item.renewalRevenue
  | "churnRate" => .num item.churnRate
  | "activeCustomers" => .num item.activeCustomers
  | "date" => .str
  | "referringDomains" => .str
  | _ => .undefined

/-- Custom-rate configuration: the numerator and denominator field names
(persisted in browser storage, hence arbitrary strings). -/
structure RateConfig where
  numerator : String
  denominator : String

/-- A record augmented with the four computed rates. -/
structure RatedData where
  toDashboardData : DashboardData
  visitorToPriceViewRate : JsVal
  priceViewToCheckoutRate : JsVal
  checkoutToPurchaseRate : JsVal
  customRate : JsVal
deriving DecidableEq, Repr

/-- Augmentation of one record with the three funnel rates and the
configured custom rate, the body of the map in processedData. -/
def rateOne (config : RateConfig) (item : DashboardData) : RatedData :=
  { toDashboardData := item
    visitorToPriceViewRate := calculateRate (.num item.pricingViews) (.num item.visitors)
    priceViewToCheckoutRate := calculateRate (.num item.checkouts) (.num item.pricingViews)
    checkoutToPurchaseRate := calculateRate (.num item.purchases) (.num item.checkouts)
    customRate :=
      calculateRate (lookupField item config.numerator) (lookupField item config.denominator) }

/-- The processedData memo of the chart: every record augmented with the
three funnel rates and the configured custom rate. -/
def processedData (config : RateConfig) (data : List DashboardData) : List RatedData :=
  data.map (rateOne config)

/-! ## Helper lemmas about the merger -/

/-- The merged record carries the billing record's date: the analytics
record found by date lookup has that very date, and the zero default is
seeded with it. -/
theorem mergeOne_date (P : List PostHogMetrics) (li : LemonSqueezyMetrics) :
    (mergeOne P li).date = li.date := by
  unfold mergeOne
  cases h : P.find? (fun p => p.date == li.date) with
  | none => simp [defaultPostHog]
  | some p =>
    have hp := List.find?_some h
    simp only [beq_iff_eq] at hp
    simpa using hp

/-- The merged record's purchases field is the billing record's. -/
theorem mergeOne_purchases (P : List PostHogMetrics) (li : LemonSqueezyMetrics) :
    (mergeOne P li).purchases = li.purchases := rfl

/-- Dates of the merged series are the billing ledger's dates in order. -/
theorem mergeDashboardData_map_date (L : List LemonSqueezyMetrics)
    (P : List PostHogMetrics) :
    (mergeDashboardData L P).map (fun r => r.date) = L.map (fun r => r.date) := by
  unfold mergeDashboardData
  rw [List.map_map]
  exact List.map_congr_left (fun li _ => mergeOne_date P li)

/-- C1: for every billing-ledger series and analytics series, the merged
output is the pointwise merge of the ledger, and every merged record keeps
the purchases count and the date of the billing-ledger record it was built
from — never the analytics value, whatever the analytics series holds. -/
theorem merge_purchases_from_billing (L : List LemonSqueezyMetrics)
    (P : List PostHogMetrics) :
    mergeDashboardData L P = L.map (mergeOne P) ∧
    ∀ li : LemonSqueezyMetrics,
      (mergeOne P li).purchases = li.purchases ∧ (mergeOne P li).date = li.date :=
  ⟨rfl, fun li => ⟨mergeOne_purchases P li, mergeOne_date P li⟩⟩

/-- C3: merging is total: the merged series has the billing ledger's dates
in the billing ledger's order (hence its length); when the ledger's dates
are distinct every ledger date owns exactly one merged record; and a
merged record whose date has no analytics entry carries zero visitors,
pricingViews, checkouts and an empty referringDomains map. -/
theorem merge_total (L : List LemonSqueezyMetrics) (P : List PostHogMetrics) :
    (mergeDashboardData L P).map (fun r => r.date) = L.map (fun r => r.date) ∧
    (∀ d : Int, (L.map (fun r => r.date)).Nodup → d ∈ L.map (fun r => r.date) →
      ((mergeDashboardData L P).filter (fun r => r.date == d)).length = 1) ∧
    (∀ r ∈ mergeDashboardData L P, (∀ p ∈ P, p.date ≠ r.date) →
      r.visitors = 0 ∧ r.pricingViews = 0 ∧ r.checkouts = 0 ∧
        r.referringDomains = []) := by
  refine ⟨mergeDashboardData_map_date L P, ?_, ?_⟩
  · intro d hnd hmem
    have h1 : ((mergeDashboardData L P).filter (fun r => r.date == d)).length =
        (((mergeDashboardData L P).map (fun r => r.date)).filter (fun x => x == d)).length := by
      rw [List.filter_map, List.length_map]
      rfl
    rw [h1, mergeDashboardData_map_date L P]
    have h2 : ((L.map (fun r => r.date)).filter (fun x => x == d)).length =
        (L.map (fun r => r.date)).count d := by
      rw [← List.countP_eq_length_filter]
      rfl
    rw [h2]
    exact List.count_eq_one_of_mem hnd hmem
  · intro r hr hno
    obtain ⟨li, hli, hrli⟩ := List.mem_map.mp hr
    have hdate : r.date = li.date := by rw [← hrli]; exact mergeOne_date P li
    have hfind : P.find? (fun p => p.date == li.date) = none := by
      rw [List.find?_eq_none]
      intro p hp
      simp only [beq_iff_eq]
      intro hpd
      exact hno p hp (by rw [hpd, ← hdate])
    rw [← hrli]
    unfold mergeOne
    rw [hfind]
    simp [defaultPostHog]

/-- C3 witness: merging the one-record ledger of day 0 with the empty
analytics series yields exactly one record for date 0, and that record
carries the zero analytics defaults. -/
theorem merge_total_witness :
    ((mergeDashboardData
      [{ date := 0, mrr := 0, revenue := 0, renewalRevenue := 0, churnRate := 0,
         activeCustomers := 0, purchases := 0 }] []).filter
        (fun r => r.date == 0)).length = 1 ∧
    ((mergeOne []
      { date := 0, mrr := 0, revenue := 0, renewalRevenue := 0, churnRate := 0,
        activeCustomers := 0, purchases := 0 }).visitors = 0 ∧
     (mergeOne []
      { date := 0, mrr := 0, revenue := 0, renewalRevenue := 0, churnRate := 0,
        activeCustomers := 0, purchases := 0 }).pricingViews = 0 ∧
     (mergeOne []
      { date := 0, mrr := 0, revenue := 0, renewalRevenue := 0, churnRate := 0,
        activeCustomers := 0, purchases := 0 }).checkouts = 0 ∧
     (mergeOne []
      { date := 0, mrr := 0, revenue := 0, renewalRevenue := 0, churnRate := 0,
        activeCustomers := 0, purchases := 0 }).referringDomains = []) :=
  ⟨(merge_total
      [{ date := 0, mrr := 0, revenue := 0, renewalRevenue := 0, churnRate := 0,
         activeCustomers := 0, purchases := 0 }] []).2.1 0 (by simp) (by simp),
   (merge_total
      [{ date := 0, mrr := 0, revenue := 0, renewalRevenue := 0, churnRate := 0,
         activeCustomers := 0, purchases := 0 }] []).2.2 _
     (List.mem_singleton.mpr rfl) (fun p hp => absurd hp (by simp))⟩

/-! ## Helper lemmas about the time-bucket aggregator -/

/-- Generic flush invariant of the aggregation loop: any projection that
is additive across addInto and preserved by startBucket sums over the
produced buckets to the current bucket's value plus the remaining input. -/
theorem aggLoop_sum_proj {M : Type} [AddCommMonoid M] (proj : DashboardData → M)
    (hadd : ∀ cb item, proj (addInto cb item) = proj cb + proj item)
    (hseed : ∀ item key, proj (startBucket item key) = proj item)
    (g : Granularity) :
    ∀ (l : List DashboardData) (cb : DashboardData),
      ((aggLoop g l cb).map proj).sum = proj cb + (l.map proj).sum := by
  intro l
  induction l with
  | nil => intro cb; simp [aggLoop]
  | cons item rest ih =>
    intro cb
    cases h : (cb.date == bucketKey g item.date) <;>
      simp [aggLoop, h, ih, hadd, hseed, add_assoc]

/-- Generic sum preservation of the aggregation for any projection that is
additive across addInto and ignores the date field. -/
theorem aggregatedData_sum_proj {M : Type} [AddCommMonoid M] (proj : DashboardData → M)
    (hadd : ∀ cb item, proj (addInto cb item) = proj cb + proj item)
    (hseed : ∀ item key, proj (startBucket item key) = proj item)
    (g : Granularity) (data : List DashboardData) :
    ((aggregatedData g data).map proj).sum = (data.map proj).sum := by
  cases g with
  | day => rfl
  | week =>
    cases data with
    | nil => rfl
    | cons first rest =>
      show ((aggLoop Granularity.week rest _).map proj).sum = _
      rw [aggLoop_sum_proj proj hadd hseed Granularity.week rest, hseed]
      simp
  | month =>
    cases data with
    | nil => rfl
    | cons first rest =>
      show ((aggLoop Granularity.month rest _).map proj).sum = _
      rw [aggLoop_sum_proj proj hadd hseed Granularity.month rest, hseed]
      simp

/-- C5: time bucketing is sum-preserving for the six flow fields: for
every granularity the bucketed series has the same total revenue,
visitors, pricingViews, checkouts, purchases and renewalRevenue as the
daily input. -/
theorem aggregation_sum_preserving (g : Granularity) (data : List DashboardData) :
    ((aggregatedData g data).map (fun r => r.revenue)).sum =
      (data.map (fun r => r.revenue)).sum ∧
    ((aggregatedData g data).map (fun r => r.visitors)).sum =
      (data.map (fun r => r.visitors)).sum ∧
    ((aggregatedData g data).map (fun r => r.pricingViews)).sum =
      (data.map (fun r => r.pricingViews)).sum ∧
    ((aggregatedData g data).map (fun r => r.checkouts)).sum =
      (data.map (fun r => r.checkouts)).sum ∧
    ((aggregatedData g data).map (fun r => r.purchases)).sum =
      (data.map (fun r => r.purchases)).sum ∧
    ((aggregatedData g data).map (fun r => r.renewalRevenue)).sum =
      (data.map (fun r => r.renewalRevenue)).sum :=
  ⟨aggregatedData_sum_proj (fun r => r.revenue) (fun _ _ => rfl) (fun _ _ => rfl) g data,
   aggregatedData_sum_proj (fun r => r.visitors) (fun _ _ => rfl) (fun _ _ => rfl) g data,
   aggregatedData_sum_proj (fun r => r.pricingViews) (fun _ _ => rfl) (fun _ _ => rfl) g data,
   aggregatedData_sum_proj (fun r => r.checkouts) (fun _ _ => rfl) (fun _ _ => rfl) g data,
   aggregatedData_sum_proj (fun r => r.purchases) (fun _ _ => rfl) (fun _ _ => rfl) g data,
   aggregatedData_sum_proj (fun r => r.renewalRevenue) (fun _ _ => rfl) (fun _ _ => rfl) g data⟩

/-! ## Rate calculation (claim C6) -/

/-- Concrete merged record used to exercise the rate calculator. -/
def sampleRecord : DashboardData :=
  { date := 19723
    visitors := 100
    pricingViews := 30
    checkouts := 5
    referringDomains := []
    mrr := 0
    revenue := 0
    renewalRevenue := 0
    churnRate := 0
    activeCustomers := 0
    purchases := 2 }

/-- C6 counterexample: with a custom-rate numerator field name that is
absent from the record and a nonzero denominator field, the computed
custom rate is NaN — refuting that rate calculation never produces NaN
for all numerator values including an absent numerator field. -/
theorem calculateRate_nan_counterexample :
    (processedData ⟨"bogus", "visitors"⟩ [sampleRecord]).map (fun r => r.customRate) =
      [JsVal.nan] ∧ JsVal.nan ≠ JsVal.num 0 := by
  constructor
  · rfl
  · intro h
    cases h

/-- C6 amended: a falsy (zero or absent) denominator yields exactly 0 for
every numerator; when both fields are present numbers and the denominator
is nonzero the rate is (numerator/denominator)*100; an absent or
non-numeric numerator with a truthy denominator yields NaN; and the three
funnel rates of processedData, whose operands are always numbers, are
never NaN. -/
theorem calculateRate_amended (item : DashboardData) (numName denName : String) :
    (¬ (lookupField item denName).truthy = true →
      calculateRate (lookupField item numName) (lookupField item denName) = .num 0) ∧
    (∀ a b : ℚ, lookupField item numName = .num a → lookupField item denName = .num b →
      b ≠ 0 →
      calculateRate (lookupField item numName) (lookupField item denName) =
        .num (a / b * 100)) ∧
    ((lookupField item numName = .undefined ∨ lookupField item numName = .str) →
      (lookupField item denName).truthy = true →
      calculateRate (lookupField item numName) (lookupField item denName) = .nan) ∧
    (∀ (config : RateConfig) (data : List DashboardData), ∀ r ∈ processedData config data,
      r.visitorToPriceViewRate ≠ .nan ∧ r.priceViewToCheckoutRate ≠ .nan ∧
        r.checkoutToPurchaseRate ≠ .nan) := by
  have hnum : ∀ x y : ℚ, calculateRate (.num x) (.num y) ≠ .nan := by
    intro x y
    by_cases hy : y = 0
    · subst hy
      simp [calculateRate, JsVal.truthy]
    · simp [calculateRate, JsVal.truthy, jsDiv, jsMul100, hy]
  refine ⟨?_, ?_, ?_, ?_⟩
  · intro h
    have h2 : (lookupField item denName).truthy = false := by
      cases htr : (lookupField item denName).truthy
      · rfl
      · exact absurd htr h
    simp [calculateRate, h2]
  · intro a b ha hb hbne
    rw [ha, hb]
    simp [calculateRate, JsVal.truthy, jsDiv, jsMul100, hbne]
  · intro hn hd
    cases hden : lookupField item denName with
    | undefined => rw [hden] at hd; simp [JsVal.truthy] at hd
    | nan => rw [hden] at hd; simp [JsVal.truthy] at hd
    | str =>
      rcases hn with h | h <;> rw [h] <;>
        simp [calculateRate, JsVal.truthy, jsDiv, jsMul100]
    | num q =>
      rw [hden] at hd
      have hq : q ≠ 0 := by simpa [JsVal.truthy] using hd
      rcases hn with h | h <;> rw [h] <;>
        simp [calculateRate, JsVal.truthy, jsDiv, jsMul100, hq]
  · intro config data r hr
    obtain ⟨item2, _, hritem⟩ := List.mem_map.mp hr
    rw [← hritem]
    exact ⟨hnum _ _, hnum _ _, hnum _ _⟩

/-- C6 amended, witnessed at concrete field names of the sample record:
an absent denominator gives 0, the pricingViews/visitors pair gives the
exact percentage, an absent numerator over the nonzero visitors field
gives NaN, and the funnel rates of the processed sample are not NaN. -/
theorem calculateRate_amended_witness :
    calculateRate (lookupField sampleRecord ("bogus")) (lookupField sampleRecord ("oops")) =
      .num 0 ∧
    calculateRate (lookupField sampleRecord ("pricingViews")) (lookupField sampleRecord ("visitors")) =
      .num (((30 : Int) : ℚ) / ((100 : Int) : ℚ) * 100) ∧
    calculateRate (lookupField sampleRecord ("bogus")) (lookupField sampleRecord ("visitors")) =
      .nan ∧
    (rateOne ⟨"purchases", "visitors"⟩ sampleRecord).visitorToPriceViewRate ≠ .nan :=
  ⟨(calculateRate_amended sampleRecord ("bogus") "oops").1 (by decide),
   (calculateRate_amended sampleRecord ("pricingViews") "visitors").2.1
     ((30 : Int) : ℚ) ((100 : Int) : ℚ) rfl rfl (by decide),
   (calculateRate_amended sampleRecord ("bogus") "visitors").2.2.1 (Or.inl rfl) (by decide),
   ((calculateRate_amended sampleRecord ("purchases") "visitors").2.2.2
     ⟨"purchases", "visitors"⟩ [sampleRecord] (rateOne ⟨"purchases", "visitors"⟩ sampleRecord)
     (List.mem_singleton.mpr rfl)).1⟩

/-! ## Pagination termination (claim C7) -/

/-- Provider that always answers with an empty page reporting lastPage 0. -/
def zeroLastPageOrders : Nat → FetchResp Order := fun _ => .page [] (some 0)

/-- Customer-list provider that always answers with an empty page
reporting lastPage 0. -/
def zeroLastPageCustomers : Nat → FetchResp Customer := fun _ => .page [] (some 0)

/-- C7: when every page reports the finite lastPage value 0 with no
records, the orders loop and the customers loop never terminate, for any
amount of fuel: the reported value 0 is falsy in JavaScript, so the
lastPage backstop is skipped and the page counter increments forever,
contradicting the guaranteed-termination claim. -/
theorem pagination_zero_lastPage_diverges :
    ∀ (fuel page : Nat) (accO : List Order) (accC : List Customer),
      fetchAllOrders zeroLastPageOrders 0 10 fuel page accO = none ∧
      fetchAllCustomers zeroLastPageCustomers fuel page accC = none := by
  intro fuel
  induction fuel with
  | zero => intro page accO accC; exact ⟨rfl, rfl⟩
  | succ n ih =>
    intro page accO accC
    constructor
    · have h := (ih (page + 1) accO []).1
      simpa [fetchAllOrders, zeroLastPageOrders, lastPageTruthy] using h
    · have h := (ih (page + 1) [] accC).2
      simpa [fetchAllCustomers, zeroLastPageCustomers, lastPageTruthy] using h

/-! ## Failure semantics of the builder (claim C8) -/

/-- C8: the billing ledger builder never surfaces an error: a falsy api
key short-circuits to the empty series for every provider environment and
every fuel (even zero fuel, so no fetch is consulted); an error result of
the try body yields the empty series; and an error of the orders fetch is
exactly such an error result of the try body. -/
theorem fetch_never_throws (apiKey : Option String) (env : LSEnv)
    (startDate endDate : Int) (fuel : Nat) :
    (apiKeyTruthy apiKey = false →
      fetchLemonSqueezyData apiKey env startDate endDate fuel = some []) ∧
    (∀ m, fetchLemonSqueezyDataE env startDate endDate fuel = some (.error m) →
      fetchLemonSqueezyData apiKey env startDate endDate fuel = some []) ∧
    (∀ m, fetchAllOrders env.orders startDate endDate fuel 1 [] = some (.error m) →
      fetchLemonSqueezyDataE env startDate endDate fuel = some (.error m)) := by
  refine ⟨?_, ?_, ?_⟩
  · intro h
    simp [fetchLemonSqueezyData, h]
  · intro m h
    unfold fetchLemonSqueezyData
    by_cases hk : apiKeyTruthy apiKey = true
    · simp only [hk, not_true, if_neg, h]
      simp
    · simp [hk]
  · intro m h
    unfold fetchLemonSqueezyDataE
    rw [h]

/-- Environment whose orders endpoint always reports an error. -/
def errEnv : LSEnv :=
  { orders := fun _ => .err ("boom")
    invoices := fun _ => .nodata
    customers := fun _ => .nodata
    subs := fun _ => .nodata }

/-- C8 witness: with a missing api key the builder returns the empty
series without any fuel, and with a present key and an erroring orders
endpoint it returns the empty series. -/
theorem fetch_never_throws_witness :
    fetchLemonSqueezyData none errEnv 0 0 0 = some [] ∧
    fetchLemonSqueezyData (some ("key")) errEnv 0 0 1 = some [] :=
  ⟨(fetch_never_throws none errEnv 0 0 0).1 rfl,
   (fetch_never_throws (some ("key")) errEnv 0 0 1).2.1 ("boom")
     ((fetch_never_throws (some ("key")) errEnv 0 0 1).2.2 ("boom") rfl)⟩

/-! ## Mock analytics series (claim C10) -/

/-- Invariant of the mock domain split: when every draw lies in [0,1) and
the remainder starts non-negative, the counts plus the final remainder sum
to the initial remainder, and the final remainder stays non-negative. -/
theorem buildMockDomains_spec (rand : Nat → ℚ) (hr : ∀ n, 0 ≤ rand n ∧ rand n < 1) :
    ∀ (doms : List String) (k : Nat) (rem : Int), 0 ≤ rem →
      ((buildMockDomains rand k doms rem).1.map (fun p => p.2)).sum +
        (buildMockDomains rand k doms rem).2 = rem ∧
      0 ≤ (buildMockDomains rand k doms rem).2 := by
  intro doms
  induction doms with
  | nil => intro k rem hrem; exact ⟨by simp [buildMockDomains], hrem⟩
  | cons dmn rest ih =>
    intro k rem hrem
    have hremq : (0 : ℚ) ≤ (rem : ℚ) := Int.cast_nonneg.mpr hrem
    have hhalf : (0 : ℚ) ≤ (rem : ℚ) / 2 := by positivity
    have hc0 : 0 ≤ ⌊rand k * ((rem : ℚ) / 2)⌋ :=
      Int.le_floor.mpr (by simpa using mul_nonneg (hr k).1 hhalf)
    have hcle : ⌊rand k * ((rem : ℚ) / 2)⌋ ≤ rem := by
      have hx : rand k * ((rem : ℚ) / 2) ≤ (rem : ℚ) := by
        calc rand k * ((rem : ℚ) / 2) ≤ 1 * ((rem : ℚ) / 2) :=
              mul_le_mul_of_nonneg_right (le_of_lt (hr k).2) hhalf
          _ = (rem : ℚ) / 2 := one_mul _
          _ ≤ (rem : ℚ) := half_le_self hremq
      calc ⌊rand k * ((rem : ℚ) / 2)⌋ ≤ ⌊(rem : ℚ)⌋ := Int.floor_le_floor hx
        _ = rem := Int.floor_intCast rem
    have hnext : 0 ≤ rem - ⌊rand k * ((rem : ℚ) / 2)⌋ := by omega
    obtain ⟨hsum, hfin⟩ := ih (k + 1) (rem - ⌊rand k * ((rem : ℚ) / 2)⌋) hnext
    refine ⟨?_, by simpa [buildMockDomains] using hfin⟩
    simp only [buildMockDomains, List.map_cons, List.sum_cons]
    omega

/-- C10: every record of the mock analytics series has
pricingViews = floor(0.3 * visitors), checkouts = floor(0.1 *
pricingViews), purchases = floor(0.5 * checkouts), and its referring
domain counts (with the other remainder when present) sum exactly to its
visitors, for every date range and every draw stream within [0,1). -/
theorem mock_funnel_and_domains (rand : Nat → ℚ)
    (hr : ∀ n, 0 ≤ rand n ∧ rand n < 1) (startDate endDate : Int) :
    ∀ rec ∈ generateMockPostHogData rand startDate endDate,
      rec.pricingViews = ⌊(0.3 : ℚ) * (rec.visitors : ℚ)⌋ ∧
      rec.checkouts = ⌊(0.1 : ℚ) * (rec.pricingViews : ℚ)⌋ ∧
      rec.purchases = ⌊(0.5 : ℚ) * (rec.checkouts : ℚ)⌋ ∧
      (rec.referringDomains.map (fun p => p.2)).sum = rec.visitors := by
  intro rec hrec
  obtain ⟨p, _, hrd⟩ := List.mem_map.mp hrec
  have hv0 : (0 : Int) ≤ 500 + ⌊rand (6 * p.1) * 500⌋ := by
    have : 0 ≤ ⌊rand (6 * p.1) * 500⌋ :=
      Int.le_floor.mpr (by simpa using mul_nonneg (hr (6 * p.1)).1 (by norm_num : (0:ℚ) ≤ 500))
    omega
  obtain ⟨hsum, hfin⟩ :=
    buildMockDomains_spec rand hr mockDomains (6 * p.1 + 1) (500 + ⌊rand (6 * p.1) * 500⌋) hv0
  rw [← hrd]
  refine ⟨by simp [mockDay, mul_comm], by simp [mockDay, mul_comm], by simp [mockDay, mul_comm], ?_⟩
  show ((mockDay rand p.1 p.2).referringDomains.map (fun q => q.2)).sum =
    (mockDay rand p.1 p.2).visitors
  unfold mockDay
  simp only
  by_cases hpos : 0 < (buildMockDomains rand (6 * p.1 + 1) mockDomains
      (500 + ⌊rand (6 * p.1) * 500⌋)).2
  · rw [if_pos hpos]
    simp only [List.map_append, List.sum_append, List.map_cons, List.sum_cons,
      List.map_nil, List.sum_nil]
    omega
  · rw [if_neg hpos]
    simp only [List.append_nil]
    omega

/-- Draw stream that always returns 0. -/
def zeroRand : Nat → ℚ := fun _ => 0

/-- C10 witness: the single mock record of the one-day range at draw
stream zero satisfies the funnel equalities and the domain-sum identity. -/
theorem mock_funnel_and_domains_witness :
    (mockDay zeroRand 0 0).pricingViews =
      ⌊(0.3 : ℚ) * ((mockDay zeroRand 0 0).visitors : ℚ)⌋ ∧
    (mockDay zeroRand 0 0).checkouts =
      ⌊(0.1 : ℚ) * ((mockDay zeroRand 0 0).pricingViews : ℚ)⌋ ∧
    (mockDay zeroRand 0 0).purchases =
      ⌊(0.5 : ℚ) * ((mockDay zeroRand 0 0).checkouts : ℚ)⌋ ∧
    ((mockDay zeroRand 0 0).referringDomains.map (fun q => q.2)).sum =
      (mockDay zeroRand 0 0).visitors :=
  mock_funnel_and_domains zeroRand (fun _ => ⟨le_refl 0, zero_lt_one⟩) 0 0
    (mockDay zeroRand 0 0) (List.mem_singleton.mpr rfl)

/-! ## Characterization of the daily reconciliation -/

/-- Action of one order on the accumulator of one day key: the pointwise
effect of processOrder on the entry holding that key. -/
def orderStep (d : Int) (a : DayAcc) (o : Order) : DayAcc :=
  if o.status == "paid" && d == o.createdAt then
    { a with
      revenue := a.revenue + (o.total : ℚ) / 100,
      purchases := a.purchases + 1 }
  else a

/-- Action of one invoice on the accumulator of one day key: the pointwise
effect of processInvoice on the entry holding that key. -/
def invoiceStep (d : Int) (a : DayAcc) (inv : Invoice) : DayAcc :=
  if inv.status == "paid" && (!isInitial inv && d == inv.createdAt) then
    { a with
      revenue := a.revenue + (inv.total : ℚ) / 100,
      renewalRevenue := a.renewalRevenue + (inv.total : ℚ) / 100 }
  else a

/-- processOrder acts on every entry of the map independently, through
orderStep at that entry's key. -/
theorem processOrder_map (m : List (Int × DayAcc)) (o : Order) :
    processOrder m o = m.map (fun p => (p.1, orderStep p.1 p.2 o)) := by
  unfold processOrder orderStep
  cases h : (o.status == "paid") with
  | false =>
    have hb : (o.status != "paid") = true := by simp [bne, h]
    rw [if_pos hb]
    simp [h]
  | true =>
    have hb : (o.status != "paid") = false := by simp [bne, h]
    rw [if_neg (by simp [hb])]
    apply List.map_congr_left
    intro p _
    by_cases hk : (p.1 == o.createdAt) = true
    · have hk2 : p.1 = o.createdAt := by simpa using hk
      simp [hk, h, hk2]
    · have hk2 : ¬ p.1 = o.createdAt := by simpa using hk
      simp [hk, h, hk2]

/-- processInvoice acts on every entry of the map independently, through
invoiceStep at that entry's key. -/
theorem processInvoice_map (m : List (Int × DayAcc)) (inv : Invoice) :
    processInvoice m inv = m.map (fun p => (p.1, invoiceStep p.1 p.2 inv)) := by
  unfold processInvoice invoiceStep
  cases h : (inv.status == "paid") with
  | false =>
    have hb : (inv.status != "paid") = true := by simp [bne, h]
    rw [if_pos hb]
    simp [h]
  | true =>
    have hb : (inv.status != "paid") = false := by simp [bne, h]
    rw [if_neg (by simp [hb])]
    cases hi : isInitial inv with
    | true => simp [h, hi]
    | false =>
      rw [if_neg (by simp [hi])]
      apply List.map_congr_left
      intro p _
      by_cases hk : (p.1 == inv.createdAt) = true
      · have hk2 : p.1 = inv.createdAt := by simpa using hk
        simp [hk, h, hi, hk2]
      · have hk2 : ¬ p.1 = inv.createdAt := by simpa using hk
        simp [hk, h, hi, hk2]

/-- Folding all orders over the map acts entrywise. -/
theorem foldl_processOrder_map (O : List Order) :
    ∀ m : List (Int × DayAcc),
      O.foldl processOrder m = m.map (fun p => (p.1, O.foldl (orderStep p.1) p.2)) := by
  induction O with
  | nil => intro m; simp
  | cons o rest ih =>
    intro m
    rw [List.foldl_cons, ih, processOrder_map, List.map_map]
    rfl

/-- Folding all invoices over the map acts entrywise. -/
theorem foldl_processInvoice_map (I : List Invoice) :
    ∀ m : List (Int × DayAcc),
      I.foldl processInvoice m = m.map (fun p => (p.1, I.foldl (invoiceStep p.1) p.2)) := by
  induction I with
  | nil => intro m; simp
  | cons inv rest ih =>
    intro m
    rw [List.foldl_cons, ih, processInvoice_map, List.map_map]
    rfl

/-- Closed form of the fold of orderStep: revenue gains the sum of
total/100 over the paid orders created on the key day, purchases gains
their number, renewalRevenue is untouched. -/
theorem orderFold_spec (d : Int) :
    ∀ (O : List Order) (a : DayAcc),
      (O.foldl (orderStep d) a).revenue =
        a.revenue + ((O.filter (fun o => o.status == "paid" && d == o.createdAt)).map
          (fun o => (o.total : ℚ) / 100)).sum ∧
      (O.foldl (orderStep d) a).renewalRevenue = a.renewalRevenue ∧
      (O.foldl (orderStep d) a).purchases =
        a.purchases + (O.filter (fun o => o.status == "paid" && d == o.createdAt)).length := by
  intro O
  induction O with
  | nil => intro a; simp
  | cons o rest ih =>
    intro a
    obtain ⟨h1, h2, h3⟩ := ih (orderStep d a o)
    cases h : (o.status == "paid" && d == o.createdAt) with
    | true =>
      refine ⟨?_, ?_, ?_⟩
      · rw [List.foldl_cons, h1]
        simp [orderStep, h, List.filter_cons, add_assoc]
      · rw [List.foldl_cons, h2]
        simp [orderStep, h]
      · rw [List.foldl_cons, h3]
        simp [orderStep, h, List.filter_cons]
        omega
    | false =>
      refine ⟨?_, ?_, ?_⟩
      · rw [List.foldl_cons, h1]
        simp [orderStep, h, List.filter_cons]
      · rw [List.foldl_cons, h2]
        simp [orderStep, h]
      · rw [List.foldl_cons, h3]
        simp [orderStep, h, List.filter_cons]

/-- Closed form of the fold of invoiceStep: revenue and renewalRevenue
both gain the sum of total/100 over the paid non-initial invoices created
on the key day, purchases is untouched. -/
theorem invoiceFold_spec (d : Int) :
    ∀ (I : List Invoice) (a : DayAcc),
      (I.foldl (invoiceStep d) a).revenue =
        a.revenue + ((I.filter (fun i => i.status == "paid" && (!isInitial i && d == i.createdAt))).map
          (fun i => (i.total : ℚ) / 100)).sum ∧
      (I.foldl (invoiceStep d) a).renewalRevenue =
        a.renewalRevenue + ((I.filter (fun i => i.status == "paid" && (!isInitial i && d == i.createdAt))).map
          (fun i => (i.total : ℚ) / 100)).sum ∧
      (I.foldl (invoiceStep d) a).purchases = a.purchases := by
  intro I
  induction I with
  | nil => intro a; simp
  | cons inv rest ih =>
    intro a
    obtain ⟨h1, h2, h3⟩ := ih (invoiceStep d a inv)
    cases h : (inv.status == "paid" && (!isInitial inv && d == inv.createdAt)) with
    | true =>
      refine ⟨?_, ?_, ?_⟩
      · rw [List.foldl_cons, h1]
        simp [invoiceStep, h, List.filter_cons, add_assoc]
      · rw [List.foldl_cons, h2]
        simp [invoiceStep, h, List.filter_cons, add_assoc]
      · rw [List.foldl_cons, h3]
        simp [invoiceStep, h]
    | false =>
      refine ⟨?_, ?_, ?_⟩
      · rw [List.foldl_cons, h1]
        simp [invoiceStep, h, List.filter_cons]
      · rw [List.foldl_cons, h2]
        simp [invoiceStep, h, List.filter_cons]
      · rw [List.foldl_cons, h3]
        simp [invoiceStep, h]

/-! ## Day range lemmas -/

/-- Membership in the seeded day range is exactly the inclusive interval. -/
theorem mem_dayRange {s e d : Int} : d ∈ dayRange s e ↔ s ≤ d ∧ d ≤ e := by
  by_cases h : s ≤ e
  · simp only [dayRange, if_pos h, List.mem_map, List.mem_range]
    constructor
    · rintro ⟨i, hi, hid⟩
      omega
    · intro hd
      exact ⟨(d - s).toNat, by omega, by omega⟩
  · simp only [dayRange, if_neg h, List.not_mem_nil, false_iff]
    omega

/-- The seeded day range is strictly increasing. -/
theorem dayRange_pairwise (s e : Int) : List.Pairwise (· < ·) (dayRange s e) := by
  unfold dayRange
  split
  · rw [List.pairwise_map]
    refine (List.pairwise_lt_range _).imp ?_
    intro a b hab
    show s + (a : Int) < s + (b : Int)
    omega
  · exact List.Pairwise.nil

/-- The dailyData map in closed form: one entry per day of the range, its
accumulator the order fold followed by the invoice fold from zero. -/
theorem buildDaily_eq (O : List Order) (I : List Invoice) (s e : Int) :
    buildDaily O I s e = (dayRange s e).map
      (fun d => (d, I.foldl (invoiceStep d) (O.foldl (orderStep d) ⟨0, 0, 0⟩))) := by
  unfold buildDaily seedDaily
  rw [foldl_processOrder_map, foldl_processInvoice_map, List.map_map, List.map_map]
  rfl

/-- The returned series in closed form: the sort is the identity because
the seeded keys are already ascending. -/
theorem buildSeries_eq (O : List Order) (I : List Invoice)
    (C : List Customer) (S : List Subscription) (s e : Int) :
    buildSeries O I C S s e = (dayRange s e).map
      (fun d => toMetrics (currentMRR C S) S.length
        (d, I.foldl (invoiceStep d) (O.foldl (orderStep d) ⟨0, 0, 0⟩))) := by
  unfold buildSeries
  rw [buildDaily_eq, List.map_map]
  apply List.Sorted.insertionSort_eq
  show List.Pairwise _ _
  rw [List.pairwise_map]
  exact (dayRange_pairwise s e).imp (fun h => le_of_lt h)

/-- Shared characterization of the built series: one record per day of
the range, every record's fields given by the filter sums over the order
and invoice lists at that record's date. -/
theorem buildSeries_spec (O : List Order) (I : List Invoice)
    (C : List Customer) (S : List Subscription) (s e : Int) :
    (buildSeries O I C S s e).map (fun r => r.date) = dayRange s e ∧
    ∀ r ∈ buildSeries O I C S s e,
      (s ≤ r.date ∧ r.date ≤ e) ∧
      r.revenue =
        ((O.filter (fun o => o.status == "paid" && r.date == o.createdAt)).map
          (fun o => (o.total : ℚ) / 100)).sum +
        ((I.filter (fun i => i.status == "paid" && (!isInitial i && r.date == i.createdAt))).map
          (fun i => (i.total : ℚ) / 100)).sum ∧
      r.renewalRevenue =
        ((I.filter (fun i => i.status == "paid" && (!isInitial i && r.date == i.createdAt))).map
          (fun i => (i.total : ℚ) / 100)).sum ∧
      r.purchases =
        (O.filter (fun o => o.status == "paid" && r.date == o.createdAt)).length := by
  constructor
  · rw [buildSeries_eq, List.map_map]
    exact List.map_id _
  · intro r hr
    rw [buildSeries_eq] at hr
    obtain ⟨d, hd, hrd⟩ := List.mem_map.mp hr
    obtain ⟨hoRev, hoRen, hoPur⟩ := orderFold_spec d O ⟨0, 0, 0⟩
    obtain ⟨hiRev, hiRen, hiPur⟩ :=
      invoiceFold_spec d I (O.foldl (orderStep d) ⟨0, 0, 0⟩)
    have hdate : r.date = d := by rw [← hrd]; rfl
    have hrange := mem_dayRange.mp hd
    refine ⟨by rw [hdate]; exact hrange, ?_, ?_, ?_⟩
    · have : r.revenue = (I.foldl (invoiceStep d) (O.foldl (orderStep d) ⟨0, 0, 0⟩)).revenue := by
        rw [← hrd]; rfl
      rw [this, hiRev, hoRev, hdate]
      simp
    · have : r.renewalRevenue =
          (I.foldl (invoiceStep d) (O.foldl (orderStep d) ⟨0, 0, 0⟩)).renewalRevenue := by
        rw [← hrd]; rfl
      rw [this, hiRen, hoRen, hdate]
      simp
    · have : r.purchases = (I.foldl (invoiceStep d) (O.foldl (orderStep d) ⟨0, 0, 0⟩)).purchases := by
        rw [← hrd]; rfl
      rw [this, hiPur, hoPur, hdate]
      simp

/-- C4: the contribution rule of the reconciliation.  The series has one
record per day of the range; a record's revenue is the total/100 sum of
the paid orders created that day plus the total/100 sum of the paid
non-initial invoices created that day, its renewalRevenue is the invoice
part alone, and its purchases count the paid orders alone.  Hence an order
contributes exactly when paid and inside the range, an invoice exactly
when paid and not initial (initial meaning billing_reason initial or a
truthy order_id), and invoices never touch purchases. -/
theorem ledger_day_contributions (O : List Order) (I : List Invoice)
    (C : List Customer) (S : List Subscription) (s e : Int) :
    (buildSeries O I C S s e).map (fun r => r.date) = dayRange s e ∧
    ∀ r ∈ buildSeries O I C S s e,
      (s ≤ r.date ∧ r.date ≤ e) ∧
      r.revenue =
        ((O.filter (fun o => o.status == "paid" && r.date == o.createdAt)).map
          (fun o => (o.total : ℚ) / 100)).sum +
        ((I.filter (fun i => i.status == "paid" && (!isInitial i && r.date == i.createdAt))).map
          (fun i => (i.total : ℚ) / 100)).sum ∧
      r.renewalRevenue =
        ((I.filter (fun i => i.status == "paid" && (!isInitial i && r.date == i.createdAt))).map
          (fun i => (i.total : ℚ) / 100)).sum ∧
      r.purchases =
        (O.filter (fun o => o.status == "paid" && r.date == o.createdAt)).length :=
  buildSeries_spec O I C S s e

/-- Zero ledger record of day 0, used by witnesses. -/
def zeroMetric : LemonSqueezyMetrics :=
  { date := 0, mrr := 0, revenue := 0, renewalRevenue := 0, churnRate := 0,
    activeCustomers := 0, purchases := 0 }

/-- C4 witness: the one-day empty-input series consists of the zero record
of day 0 and satisfies the contribution sums. -/
theorem ledger_day_contributions_witness :
    ((0 : Int) ≤ zeroMetric.date ∧ zeroMetric.date ≤ 0) ∧
    zeroMetric.revenue =
      ((([] : List Order).filter (fun o => o.status == "paid" && zeroMetric.date == o.createdAt)).map
        (fun o => (o.total : ℚ) / 100)).sum +
      ((([] : List Invoice).filter (fun i => i.status == "paid" && (!isInitial i && zeroMetric.date == i.createdAt))).map
        (fun i => (i.total : ℚ) / 100)).sum ∧
    zeroMetric.renewalRevenue =
      ((([] : List Invoice).filter (fun i => i.status == "paid" && (!isInitial i && zeroMetric.date == i.createdAt))).map
        (fun i => (i.total : ℚ) / 100)).sum ∧
    zeroMetric.purchases =
      (([] : List Order).filter (fun o => o.status == "paid" && zeroMetric.date == o.createdAt)).length :=
  (ledger_day_contributions [] [] [] [] 0 0).2 zeroMetric (List.mem_singleton.mpr rfl)

/-! ## Soundness of the pagination loops -/

/-- Splitting membership in an accumulator extended by a filtered page. -/
theorem mem_of_append_filter {α : Type} {x : α} {acc data : List α} {f : α → Bool}
    (h : x ∈ acc ++ data.filter f) : x ∈ acc ∨ x ∈ data := by
  rcases List.mem_append.mp h with h1 | h1
  · exact Or.inl h1
  · exact Or.inr (List.mem_of_mem_filter h1)

/-- Every order collected by the pagination loop comes from the starting
accumulator or from some page of the provider. -/
theorem fetchAllOrders_sound (resp : Nat → FetchResp Order) (s e : Int) :
    ∀ (fuel page : Nat) (acc l : List Order),
      fetchAllOrders resp s e fuel page acc = some (.ok l) →
      ∀ o ∈ l, o ∈ acc ∨ ∃ pg, o ∈ respData (resp pg) := by
  intro fuel
  induction fuel with
  | zero =>
    intro page acc l h
    exact absurd h (by simp [fetchAllOrders])
  | succ n ih =>
    intro page acc l h o ho
    simp only [fetchAllOrders] at h
    revert h
    cases hresp : resp page with
    | err m =>
      intro h
      simp at h
    | nodata =>
      intro h
      simp only [Option.some.injEq, Except.ok.injEq] at h
      subst h
      exact Or.inl ho
    | page orders lastPage =>
      intro h
      dsimp only at h
      split at h
      · simp only [Option.some.injEq, Except.ok.injEq] at h
        subst h
        rcases mem_of_append_filter ho with h1 | h1
        · exact Or.inl h1
        · exact Or.inr ⟨page, by rw [hresp]; exact h1⟩
      · split at h
        · simp only [Option.some.injEq, Except.ok.injEq] at h
          subst h
          rcases mem_of_append_filter ho with h1 | h1
          · exact Or.inl h1
          · exact Or.inr ⟨page, by rw [hresp]; exact h1⟩
        · rcases ih (page + 1) _ l h o ho with h1 | h1
          · rcases mem_of_append_filter h1 with h2 | h2
            · exact Or.inl h2
            · exact Or.inr ⟨page, by rw [hresp]; exact h2⟩
          · exact Or.inr h1

/-- Every invoice collected by the pagination loop comes from the starting
accumulator or from some page of the provider. -/
theorem fetchAllInvoices_sound (resp : Nat → FetchResp Invoice) (s e : Int) :
    ∀ (fuel page : Nat) (acc l : List Invoice),
      fetchAllInvoices resp s e fuel page acc = some (.ok l) →
      ∀ i ∈ l, i ∈ acc ∨ ∃ pg, i ∈ respData (resp pg) := by
  intro fuel
  induction fuel with
  | zero =>
    intro page acc l h
    exact absurd h (by simp [fetchAllInvoices])
  | succ n ih =>
    intro page acc l h i hi
    simp only [fetchAllInvoices] at h
    revert h
    cases hresp : resp page with
    | err m =>
      intro h
      simp at h
    | nodata =>
      intro h
      simp only [Option.some.injEq, Except.ok.injEq] at h
      subst h
      exact Or.inl hi
    | page invoices lastPage =>
      intro h
      dsimp only at h
      split at h
      · simp only [Option.some.injEq, Except.ok.injEq] at h
        subst h
        rcases mem_of_append_filter hi with h1 | h1
        · exact Or.inl h1
        · exact Or.inr ⟨page, by rw [hresp]; exact h1⟩
      · split at h
        · simp only [Option.some.injEq, Except.ok.injEq] at h
          subst h
          rcases mem_of_append_filter hi with h1 | h1
          · exact Or.inl h1
          · exact Or.inr ⟨page, by rw [hresp]; exact h1⟩
        · rcases ih (page + 1) _ l h i hi with h1 | h1
          · rcases mem_of_append_filter h1 with h2 | h2
            · exact Or.inl h2
            · exact Or.inr ⟨page, by rw [hresp]; exact h2⟩
          · exact Or.inr h1

/-- A successful non-empty fetch decomposes into four successful
pagination loops and the series built from their results. -/
theorem fetch_success_shape (apiKey : Option String) (env : LSEnv) (s e : Int)
    (fuel : Nat) (l : List LemonSqueezyMetrics)
    (hfetch : fetchLemonSqueezyData apiKey env s e fuel = some l) (hne : l ≠ []) :
    ∃ O I C S,
      fetchAllOrders env.orders s e fuel 1 [] = some (.ok O) ∧
      fetchAllInvoices env.invoices s e fuel 1 [] = some (.ok I) ∧
      fetchAllCustomers env.customers fuel 1 [] = some (.ok C) ∧
      fetchActiveSubs env.subs fuel 1 [] = some (.ok S) ∧
      l = buildSeries O I C S s e := by
  unfold fetchLemonSqueezyData at hfetch
  by_cases hk : apiKeyTruthy apiKey = true
  · rw [if_neg (by simp [hk])] at hfetch
    unfold fetchLemonSqueezyDataE at hfetch
    cases hO : fetchAllOrders env.orders s e fuel 1 [] with
    | none => rw [hO] at hfetch; simp at hfetch
    | some xO =>
      cases xO with
      | error m =>
        rw [hO] at hfetch
        simp only [Option.some.injEq] at hfetch
        exact absurd hfetch.symm hne
      | ok O =>
        rw [hO] at hfetch
        cases hI : fetchAllInvoices env.invoices s e fuel 1 [] with
        | none => rw [hI] at hfetch; simp at hfetch
        | some xI =>
          cases xI with
          | error m =>
            rw [hI] at hfetch
            simp only [Option.some.injEq] at hfetch
            exact absurd hfetch.symm hne
          | ok I =>
            rw [hI] at hfetch
            cases hC : fetchAllCustomers env.customers fuel 1 [] with
            | none => rw [hC] at hfetch; simp at hfetch
            | some xC =>
              cases xC with
              | error m =>
                rw [hC] at hfetch
                simp only [Option.some.injEq] at hfetch
                exact absurd hfetch.symm hne
              | ok C =>
                rw [hC] at hfetch
                cases hS : fetchActiveSubs env.subs fuel 1 [] with
                | none => rw [hS] at hfetch; simp at hfetch
                | some xS =>
                  cases xS with
                  | error m =>
                    rw [hS] at hfetch
                    simp only [Option.some.injEq] at hfetch
                    exact absurd hfetch.symm hne
                  | ok S =>
                    rw [hS] at hfetch
                    simp only [Option.some.injEq] at hfetch
                    exact ⟨O, I, C, S, rfl, rfl, rfl, rfl, hfetch.symm⟩
  · rw [if_pos (by simp [hk])] at hfetch
    simp only [Option.some.injEq] at hfetch
    exact absurd hfetch.symm hne

/-- C2: every record of a non-empty series returned by the billing ledger
builder satisfies renewalRevenue less-or-equal revenue, whenever all order
and invoice total amounts delivered by the provider are non-negative. -/
theorem ledger_renewal_le_revenue (apiKey : Option String) (env : LSEnv)
    (s e : Int) (fuel : Nat) (l : List LemonSqueezyMetrics)
    (hfetch : fetchLemonSqueezyData apiKey env s e fuel = some l)
    (hOtot : ∀ (pg : Nat), ∀ o ∈ respData (env.orders pg), 0 ≤ o.total)
    (hItot : ∀ (pg : Nat), ∀ i ∈ respData (env.invoices pg), 0 ≤ i.total)
    (hne : l ≠ []) :
    ∀ r ∈ l, r.renewalRevenue ≤ r.revenue := by
  obtain ⟨O, I, C, S, hO, hI, hC, hS, hl⟩ :=
    fetch_success_shape apiKey env s e fuel l hfetch hne
  subst hl
  intro r hr
  obtain ⟨-, hrev, hren, -⟩ := (buildSeries_spec O I C S s e).2 r hr
  rw [hrev, hren]
  have hOsum : 0 ≤ ((O.filter (fun o => o.status == "paid" && r.date == o.createdAt)).map
      (fun o => (o.total : ℚ) / 100)).sum := by
    apply List.sum_nonneg
    intro x hx
    obtain ⟨o, hof, hxo⟩ := List.mem_map.mp hx
    have hoO : o ∈ O := List.mem_of_mem_filter hof
    have htot : 0 ≤ o.total := by
      rcases fetchAllOrders_sound env.orders s e fuel 1 [] O hO o hoO with h1 | ⟨pg, hpg⟩
      · simp at h1
      · exact hOtot pg o hpg
    rw [← hxo]
    have : (0 : ℚ) ≤ (o.total : ℚ) := Int.cast_nonneg.mpr htot
    positivity
  linarith

/-- Provider environment all of whose endpoints answer one empty page. -/
def emptyPageEnv : LSEnv :=
  { orders := fun _ => .page [] (some 1)
    invoices := fun _ => .page [] (some 1)
    customers := fun _ => .page [] (some 1)
    subs := fun _ => .page [] (some 1) }

/-- Zero ledger record of day 1, used by witnesses. -/
def oneMetric : LemonSqueezyMetrics :=
  { date := 1, mrr := 0, revenue := 0, renewalRevenue := 0, churnRate := 0,
    activeCustomers := 0, purchases := 0 }

/-- C2 witness: the two-day fetch against the empty-page provider returns
the two zero records, whose first one satisfies the inequality. -/
theorem ledger_renewal_le_revenue_witness :
    zeroMetric.renewalRevenue ≤ zeroMetric.revenue :=
  ledger_renewal_le_revenue (some ("key")) emptyPageEnv 0 1 1 [zeroMetric, oneMetric]
    rfl
    (fun pg o ho => absurd ho (by simp [emptyPageEnv, respData]))
    (fun pg i hi => absurd hi (by simp [emptyPageEnv, respData]))
    (by simp)
    zeroMetric (List.mem_cons_self _ _)

/-- C9: a non-empty series returned by the billing ledger builder for a
range with startDate less-or-equal endDate has exactly the days of the
inclusive range as its dates, in ascending order, one record per day; and
a record of a day for which the provider holds no contributing paid order
and no contributing paid non-initial invoice carries zero revenue,
renewalRevenue and purchases. -/
theorem ledger_contiguous_sorted (apiKey : Option String) (env : LSEnv)
    (s e : Int) (fuel : Nat) (l : List LemonSqueezyMetrics)
    (hse : s ≤ e)
    (hfetch : fetchLemonSqueezyData apiKey env s e fuel = some l)
    (hne : l ≠ []) :
    l.map (fun r => r.date) = dayRange s e ∧
    (∀ d : Int, s ≤ d → d ≤ e → (l.filter (fun r => r.date == d)).length = 1) ∧
    List.Pairwise (fun a b => a.date < b.date) l ∧
    (∀ r ∈ l,
      (∀ (pg : Nat), ∀ o ∈ respData (env.orders pg),
        o.status = "paid" → o.createdAt ≠ r.date) →
      (∀ (pg : Nat), ∀ i ∈ respData (env.invoices pg),
        i.status = "paid" → isInitial i = false → i.createdAt ≠ r.date) →
      r.revenue = 0 ∧ r.renewalRevenue = 0 ∧ r.purchases = 0) := by
  obtain ⟨O, I, C, S, hO, hI, hC, hS, hl⟩ :=
    fetch_success_shape apiKey env s e fuel l hfetch hne
  subst hl
  have hmap := (buildSeries_spec O I C S s e).1
  refine ⟨hmap, ?_, ?_, ?_⟩
  · intro d hd1 hd2
    have h1 : ((buildSeries O I C S s e).filter (fun r => r.date == d)).length =
        (((buildSeries O I C S s e).map (fun r => r.date)).filter (fun x => x == d)).length := by
      rw [List.filter_map, List.length_map]
      rfl
    rw [h1, hmap]
    have h2 : ((dayRange s e).filter (fun x => x == d)).length = (dayRange s e).count d := by
      rw [← List.countP_eq_length_filter]
      rfl
    rw [h2]
    exact List.count_eq_one_of_mem
      ((dayRange_pairwise s e).imp (fun h => ne_of_lt h))
      (mem_dayRange.mpr ⟨hd1, hd2⟩)
  · have hp : List.Pairwise (· < ·) ((buildSeries O I C S s e).map (fun r => r.date)) := by
      rw [hmap]; exact dayRange_pairwise s e
    rw [List.pairwise_map] at hp
    exact hp
  · intro r hr hno hni
    obtain ⟨-, hrev, hren, hpur⟩ := (buildSeries_spec O I C S s e).2 r hr
    have hOfil : O.filter (fun o => o.status == "paid" && r.date == o.createdAt) = [] := by
      rw [List.filter_eq_nil_iff]
      intro o hoO hcond
      simp only [Bool.and_eq_true, beq_iff_eq] at hcond
      obtain ⟨hst, hdt⟩ := hcond
      rcases fetchAllOrders_sound env.orders s e fuel 1 [] O hO o hoO with h1 | ⟨pg, hpg⟩
      · simp at h1
      · exact hno pg o hpg hst hdt.symm
    have hIfil : I.filter (fun i => i.status == "paid" && (!isInitial i && r.date == i.createdAt)) = [] := by
      rw [List.filter_eq_nil_iff]
      intro i hiI hcond
      simp only [Bool.and_eq_true, Bool.not_eq_true', beq_iff_eq] at hcond
      obtain ⟨hst, hini, hdt⟩ := hcond
      rcases fetchAllInvoices_sound env.invoices s e fuel 1 [] I hI i hiI with h1 | ⟨pg, hpg⟩
      · simp at h1
      · exact hni pg i hpg hst hini hdt.symm
    rw [hrev, hren, hpur, hOfil, hIfil]
    simp

/-- C9 witness: the two-day empty-page fetch yields exactly the day range
0..1 as its dates. -/
theorem ledger_contiguous_sorted_witness :
    ([zeroMetric, oneMetric].map (fun r => r.date) : List Int) = dayRange 0 1 :=
  (ledger_contiguous_sorted (some ("key")) emptyPageEnv 0 1 1 [zeroMetric, oneMetric]
    (by decide) rfl (by simp)).1

end SaaSMetrics
